import Mathlib

/-!
Verification of the chat backend's conversation / message / read-state core.

The definitions below are a shallow embedding of the TypeScript handlers in
`src/server/src/api/routes/chat/schema.ts` and of the connection registry in
`src/server/src/api/plugins/websocket.ts`.  The Prisma database is modelled as
lists of rows; every handler is a pure function from a database state (plus a
`now` timestamp standing for `new Date()`) to a result, an updated database
state, and the list of websocket dispatches it performs.  Timestamps are
natural numbers; Prisma string enums stay strings, as in the source.
-/

namespace Chat

/-- A user row (the columns the chat handlers touch). -/
structure User where
  id : Nat
  username : String
  avatar : Option String
  status : String
deriving DecidableEq

/-- A conversation row: `ctype` is the source's `type` column
(`"direct"` or `"group"`). -/
structure Conversation where
  id : Nat
  ctype : String
  groupId : Option Nat
  lastMessageAt : Option Nat
  createdAt : Nat
  updatedAt : Nat
deriving DecidableEq

/-- A conversationParticipant row, keyed by the unique pair
(conversationId, userId). -/
structure ConversationParticipant where
  conversationId : Nat
  userId : Nat
  lastReadAt : Nat
  isArchived : Bool
  isMuted : Bool
  joinedAt : Nat
deriving DecidableEq

/-- A message row. -/
structure Message where
  id : Nat
  conversationId : Nat
  senderId : Nat
  receiverId : Option Nat
  content : Option String
  mtype : String
  mediaUrl : Option String
  replyToId : Option Nat
  status : String
  callStatus : Option String
  callStartedAt : Option Nat
  callEndedAt : Option Nat
  callDuration : Option Nat
  createdAt : Nat
  updatedAt : Nat
  deletedAt : Option Nat
deriving DecidableEq

/-- The database state: the tables the chat handlers touch plus the
auto-increment counters for rows the handlers create. -/
structure DB where
  users : List User
  conversations : List Conversation
  participants : List ConversationParticipant
  messages : List Message
  nextConversationId : Nat
  nextMessageId : Nat
deriving DecidableEq

/-- The error taxonomy of the handlers, by HTTP status code:
400 invalidArgument, 403 forbidden, 404 notFound, 500 serverError. -/
inductive ApiError where
  | invalidArgument
  | forbidden
  | notFound
  | serverError
deriving DecidableEq

/-- One `broadcastToUser`/`broadcastToUsers` call made by a handler:
the target user ids, the event's `type` string, and the message id
carried in the payload (if any). -/
structure Dispatch where
  targets : List Nat
  eventType : String
  messageId : Option Nat
deriving DecidableEq

/-- `prisma.user.findUnique({ where: { id } })`. -/
def findUser (db : DB) (id : Nat) : Option User :=
  db.users.find? (fun u => u.id == id)

/-- `prisma.conversation.findUnique({ where: { id } })`. -/
def findConversation (db : DB) (id : Nat) : Option Conversation :=
  db.conversations.find? (fun c => c.id == id)

/-- `prisma.conversationParticipant.findUnique` on the unique
(conversationId, userId) pair. -/
def findParticipant (db : DB) (cid uid : Nat) : Option ConversationParticipant :=
  db.participants.find? (fun p => p.conversationId == cid && p.userId == uid)

/-- `prisma.message.findUnique({ where: { id } })`. -/
def findMessage (db : DB) (id : Nat) : Option Message :=
  db.messages.find? (fun m => m.id == id)

/-- The participant rows of one conversation (the `participants` include on a
conversation query). -/
def participantsOf (db : DB) (cid : Nat) : List ConversationParticipant :=
  db.participants.filter (fun p => p.conversationId == cid)

/-- Database well-formedness, as the persistence layer guarantees it:
auto-increment counters are fresh, row ids are at least 1, and the unique
constraints on user id, conversation id, message id and the
(conversationId, userId) participant pair hold. -/
def DBWF (db : DB) : Prop :=
  (∀ c ∈ db.conversations, c.id < db.nextConversationId) ∧
  (∀ p ∈ db.participants, p.conversationId < db.nextConversationId) ∧
  (∀ m ∈ db.messages, m.id < db.nextMessageId) ∧
  (∀ m ∈ db.messages, 1 ≤ m.id) ∧
  db.conversations.Pairwise (fun a b => a.id ≠ b.id) ∧
  db.messages.Pairwise (fun a b => a.id ≠ b.id) ∧
  db.users.Pairwise (fun a b => a.id ≠ b.id) ∧
  db.participants.Pairwise
    (fun a b => a.conversationId ≠ b.conversationId ∨ a.userId ≠ b.userId)

instance (db : DB) : Decidable (DBWF db) := by
  unfold DBWF; infer_instance

/-- The `findFirst` predicate of `createDirectConversation`: a `direct`
conversation whose participants all lie in `{a, b}` and where both `a` and
`b` occur (`every userId in [a,b]` plus the two `some` clauses). -/
def directMatch (db : DB) (a b : Nat) (c : Conversation) : Bool :=
  c.ctype == "direct" &&
    (participantsOf db c.id).all (fun p => p.userId == a || p.userId == b) &&
    (participantsOf db c.id).any (fun p => p.userId == a) &&
    (participantsOf db c.id).any (fun p => p.userId == b)

/-- The conversation row `createDirectConversation` creates. -/
def newDirectConv (db : DB) (now : Nat) : Conversation :=
  { id := db.nextConversationId, ctype := "direct", groupId := none,
    lastMessageAt := none, createdAt := now, updatedAt := now }

/-- A participant row created with a conversation (`lastReadAt` defaults to
the join time). -/
def newDirectParticipant (db : DB) (uid now : Nat) : ConversationParticipant :=
  { conversationId := db.nextConversationId, userId := uid, lastReadAt := now,
    isArchived := false, isMuted := false, joinedAt := now }

/-- The state after `createDirectConversation` creates the conversation plus
its two participant rows transactionally. -/
def createdDirectDB (db : DB) (uid targetUserId now : Nat) : DB :=
  { db with
    conversations := db.conversations ++ [newDirectConv db now],
    participants := db.participants ++
      [newDirectParticipant db uid now, newDirectParticipant db targetUserId now],
    nextConversationId := db.nextConversationId + 1 }

/-- `createDirectConversation` (`schema.ts`): reject self-chat, require the
target user to exist, return an existing matching `direct` conversation's id
unchanged, else create the conversation plus its two participant rows.
Returns the conversation id of the response payload. -/
def createDirectConversation (db : DB) (uid targetUserId : Nat) (now : Nat) :
    Except ApiError Nat × DB :=
  if uid = targetUserId then
    (.error .invalidArgument, db)
  else
    match findUser db targetUserId with
    | none => (.error .notFound, db)
    | some _ =>
      match db.conversations.find? (directMatch db uid targetUserId) with
      | some c => (.ok c.id, db)
      | none => (.ok db.nextConversationId, createdDirectDB db uid targetUserId now)

/-- Insert into a list sorted by the relation `r` (``r a b`` means `a` may
come before `b`). -/
def insertBy (r : α → α → Bool) (a : α) : List α → List α
  | [] => [a]
  | b :: l => if r a b then a :: b :: l else b :: insertBy r a l

/-- Insertion sort by `r`; models a Prisma `orderBy`. -/
def sortBy (r : α → α → Bool) : List α → List α
  | [] => []
  | a :: l => insertBy r a (sortBy r l)

/-- `orderBy createdAt desc` on messages. -/
def msgRecentFirst (m1 m2 : Message) : Bool :=
  m2.createdAt ≤ m1.createdAt

/-- `orderBy lastMessageAt desc` on conversations, nulls last. -/
def convRecentFirst (c1 c2 : Conversation) : Bool :=
  match c1.lastMessageAt, c2.lastMessageAt with
  | some a, some b => b ≤ a
  | some _, none => true
  | none, some _ => false
  | none, none => true

/-- The `lastMessage` annotation of `getConversations`: the conversation's
messages ordered by `createdAt` descending, `take 1` — note the source query
has no `deletedAt` filter here. -/
def lastMessageOf (db : DB) (cid : Nat) : Option Message :=
  (sortBy msgRecentFirst
    (db.messages.filter (fun m => m.conversationId == cid))).head?

/-- The unread-count query of `getConversations`: messages of the
conversation with `createdAt > lastReadAt` and `senderId ≠ userId`. -/
def unreadCountQuery (db : DB) (cid uid lastReadAt : Nat) : Nat :=
  (db.messages.filter (fun m =>
    m.conversationId == cid && lastReadAt < m.createdAt && m.senderId != uid)).length

/-- The `lastMessage` projection returned to the client. -/
structure LastMessageView where
  id : Nat
  content : Option String
  mtype : String
  createdAt : Nat
  senderId : Nat
deriving DecidableEq

/-- One formatted conversation of the `getConversations` response
(`participants` keeps the other participants' user ids). -/
structure ConvListEntry where
  id : Nat
  ctype : String
  lastMessageAt : Option Nat
  unreadCount : Nat
  isArchived : Bool
  isMuted : Bool
  participants : List Nat
  lastMessage : Option LastMessageView
  groupId : Option Nat
deriving DecidableEq

/-- The per-conversation formatting step of `getConversations`: unread count
from the caller's participant row (`new Date(0)` when absent), other
participants' profiles, and the newest message of the conversation. -/
def annotateConversation (db : DB) (uid : Nat) (c : Conversation) : ConvListEntry :=
  let participant := findParticipant db c.id uid
  let lastRead := match participant with
    | some p => p.lastReadAt
    | none => 0
  { id := c.id,
    ctype := c.ctype,
    lastMessageAt := c.lastMessageAt,
    unreadCount := unreadCountQuery db c.id uid lastRead,
    isArchived := match participant with | some p => p.isArchived | none => false,
    isMuted := match participant with | some p => p.isMuted | none => false,
    participants :=
      ((participantsOf db c.id).filter (fun p => p.userId != uid)).map (fun p => p.userId),
    lastMessage := (lastMessageOf db c.id).map (fun m =>
      { id := m.id, content := m.content, mtype := m.mtype,
        createdAt := m.createdAt, senderId := m.senderId }),
    groupId := c.groupId }

/-- `getConversations` (`schema.ts`): the caller's conversations ordered by
`lastMessageAt` descending, paginated by `skip = (page-1)*limit` and `take =
limit`, each formatted by `annotateConversation`; `total` counts the caller's
participant rows and `hasMore = skip + returned < total`. -/
def getConversations (db : DB) (uid : Nat) (page limit : Nat) :
    List ConvListEntry × Nat × Bool :=
  let skip := (page - 1) * limit
  let myConvs := db.conversations.filter (fun c =>
    db.participants.any (fun p => p.conversationId == c.id && p.userId == uid))
  let pageList := ((sortBy convRecentFirst myConvs).drop skip).take limit
  let total := (db.participants.filter (fun p => p.userId == uid)).length
  (pageList.map (annotateConversation db uid), total,
    decide (skip + pageList.length < total))

/-- `getMessages` (`schema.ts`): requires the caller's participant row
(`notFound` otherwise), filters to non-deleted messages of the conversation
(optionally strictly older than the `before` message when that lookup
succeeds), orders newest first, paginates, and then unconditionally sets the
caller's `lastReadAt` to `now`. -/
def getMessages (db : DB) (uid cid : Nat) (page limit : Nat)
    (before : Option Nat) (now : Nat) :
    Except ApiError (List Message × Nat) × DB :=
  match findParticipant db cid uid with
  | none => (.error .notFound, db)
  | some _ =>
    let skip := (page - 1) * limit
    let cutoff : Option Nat := match before with
      | some b => (findMessage db b).map (fun bm => bm.createdAt)
      | none => none
    let cond : Message → Bool := fun m =>
      m.conversationId == cid && m.deletedAt == none &&
        (match cutoff with | some t => decide (m.createdAt < t) | none => true)
    let msgs := ((sortBy msgRecentFirst (db.messages.filter cond)).drop skip).take limit
    let total := (db.messages.filter cond).length
    let db' := { db with participants := db.participants.map (fun p =>
      if p.conversationId == cid && p.userId == uid then
        { p with lastReadAt := now } else p) }
    (.ok (msgs, total), db')

/-- The request body of `sendMessage`. -/
structure SendMessageBody where
  conversationId : Nat
  content : String
  mtype : String
  mediaUrl : Option String
  replyToId : Option Nat
deriving DecidableEq

/-- One step of the `sendMessage` handler, in source order: the
`message.create`, the `conversation.update` of `lastMessageAt`, the
`conversationParticipant.update` of the sender's `lastReadAt`, and the
`broadcastToUsers` dispatch. -/
inductive SendAction where
  | createMsg (m : Message)
  | setLastMessageAt (cid t : Nat)
  | setSenderLastReadAt (cid uid t : Nat)
  | dispatchEvent (targets : List Nat) (eventType : String) (messageId : Nat)
deriving DecidableEq

/-- Apply one `SendAction` to the database; a dispatch leaves it unchanged. -/
def applyAction (db : DB) (a : SendAction) : DB :=
  match a with
  | .createMsg m =>
    { db with messages := db.messages ++ [m], nextMessageId := db.nextMessageId + 1 }
  | .setLastMessageAt cid t =>
    { db with conversations := db.conversations.map (fun c =>
        if c.id == cid then { c with lastMessageAt := some t, updatedAt := t } else c) }
  | .setSenderLastReadAt cid uid t =>
    { db with participants := db.participants.map (fun p =>
        if p.conversationId == cid && p.userId == uid then
          { p with lastReadAt := t } else p) }
  | .dispatchEvent _ _ _ => db

/-- Whether a `SendAction` is a websocket dispatch (not a database write). -/
def SendAction.isDispatch : SendAction → Bool
  | .dispatchEvent _ _ _ => true
  | _ => false

/-- The dispatches of a trace. -/
def dispatchesOf (tr : List SendAction) : List Dispatch :=
  tr.filterMap (fun a => match a with
    | .dispatchEvent ts ty mid => some { targets := ts, eventType := ty, messageId := some mid }
    | _ => none)

/-- The other participants of a conversation, as the handlers compute them
(`participants.filter(p => p.userId !== userId).map(p => p.userId)`). -/
def otherParticipantIds (db : DB) (cid uid : Nat) : List Nat :=
  ((participantsOf db cid).filter (fun p => p.userId != uid)).map (fun p => p.userId)

/-- The `replyToId` validation of `sendMessage` — run only when `replyToId`
is JS-truthy (present and nonzero): the replied-to message must exist and
belong to the same conversation. -/
def replyCheckFails (db : DB) (body : SendMessageBody) : Bool :=
  match body.replyToId with
  | some r =>
    if r ≠ 0 then
      match findMessage db r with
      | some rm => rm.conversationId != body.conversationId
      | none => true
    else false
  | none => false

/-- The Prisma self-referencing `replyToId` foreign key: a create whose
`replyToId` references no message row throws (caught as a 500). -/
def replyFkViolation (db : DB) (body : SendMessageBody) : Bool :=
  match body.replyToId with
  | some r => (findMessage db r).isNone
  | none => false

/-- The message row `sendMessage` creates (status `sent`). -/
def newMessageOf (db : DB) (uid : Nat) (body : SendMessageBody) (now : Nat) : Message :=
  { id := db.nextMessageId, conversationId := body.conversationId,
    senderId := uid, receiverId := none, content := some body.content,
    mtype := body.mtype, mediaUrl := body.mediaUrl,
    replyToId := body.replyToId, status := "sent", callStatus := none,
    callStartedAt := none, callEndedAt := none, callDuration := none,
    createdAt := now, updatedAt := now, deletedAt := none }

/-- `sendMessage` (`schema.ts`) as the ordered trace of its effects.
Checks, in source order: conversation exists (`notFound`), caller is a
participant (`forbidden`), the truthy-`replyToId` validation
(`invalidArgument`), and the reply foreign key at create time.  On success
the trace is: create the message with status `sent`, set the conversation's
`lastMessageAt` to the message's `createdAt`, set the sender's `lastReadAt`
to `now`, then dispatch `new_message` to the other participants. -/
def sendMessageTrace (db : DB) (uid : Nat) (body : SendMessageBody) (now : Nat) :
    Except ApiError (List SendAction × Message) :=
  match findConversation db body.conversationId with
  | none => .error .notFound
  | some _ =>
    if !((participantsOf db body.conversationId).any (fun p => p.userId == uid)) then
      .error .forbidden
    else if replyCheckFails db body then .error .invalidArgument
    else if replyFkViolation db body then .error .serverError
    else
      .ok ([.createMsg (newMessageOf db uid body now),
            .setLastMessageAt body.conversationId (newMessageOf db uid body now).createdAt,
            .setSenderLastReadAt body.conversationId uid now,
            .dispatchEvent (otherParticipantIds db body.conversationId uid)
              "new_message" (newMessageOf db uid body now).id],
           newMessageOf db uid body now)

/-- `sendMessage` at the database level: fold the trace over the state.
Every error branch of the handler returns before any write, so the database
is unchanged on error. -/
def sendMessage (db : DB) (uid : Nat) (body : SendMessageBody) (now : Nat) :
    Except ApiError Message × DB × List Dispatch :=
  match sendMessageTrace db uid body now with
  | .error e => (.error e, db, [])
  | .ok (tr, m) => (.ok m, tr.foldl applyAction db, dispatchesOf tr)

/-- The request body of `readMessages`. -/
structure ReadMessagesBody where
  conversationId : Nat
  lastReadMessageId : Option Nat
deriving DecidableEq

/-- The `updateMany` of `readMessages`: messages of the conversation with
`id ≤ lastId`, `senderId ≠ uid` and status `sent`/`delivered` become
`read`; every other message is unchanged. -/
def markReadUpdate (cid uid lastId : Nat) (m : Message) : Message :=
  if m.conversationId == cid && m.id ≤ lastId && m.senderId != uid &&
      (m.status == "sent" || m.status == "delivered") then
    { m with status := "read" }
  else m

/-- The `if (lastReadMessageId)` JS-truthiness test of `readMessages`: a
present, nonzero id. -/
def truthyLastRead (body : ReadMessagesBody) : Option Nat :=
  match body.lastReadMessageId with
  | some x => if x ≠ 0 then some x else none
  | none => none

/-- The state after the `updateMany` bulk status update of `readMessages`
(a no-op when `lastReadMessageId` is falsy). -/
def readBulkApplied (db : DB) (uid : Nat) (body : ReadMessagesBody) : DB :=
  match truthyLastRead body with
  | some x =>
    { db with messages := db.messages.map (markReadUpdate body.conversationId uid x) }
  | none => db

/-- The `lastReadAt` value `readMessages` writes: the referenced message's
`createdAt`, falling back to `now` when that lookup fails or no truthy id
was given. -/
def readNewLastReadAt (db : DB) (uid : Nat) (body : ReadMessagesBody) (now : Nat) : Nat :=
  match truthyLastRead body with
  | some x =>
    match findMessage (readBulkApplied db uid body) x with
    | some lm => lm.createdAt
    | none => now
  | none => now

/-- The state after `readMessages` also updates the caller's participant
row. -/
def readFinal (db : DB) (uid : Nat) (body : ReadMessagesBody) (now : Nat) : DB :=
  { readBulkApplied db uid body with
    participants := (readBulkApplied db uid body).participants.map (fun p =>
      if p.conversationId == body.conversationId && p.userId == uid then
        { p with lastReadAt := readNewLastReadAt db uid body now } else p) }

/-- The `message_read` notification of `readMessages`. -/
def readEvents (db2 : DB) (uid : Nat) (body : ReadMessagesBody) : List Dispatch :=
  match truthyLastRead body with
  | some x =>
    match findMessage db2 x with
    | some m =>
      if m.senderId != uid then
        [{ targets := [m.senderId], eventType := "message_read", messageId := some x }]
      else []
    | none => []
  | none => []

/-- `readMessages` (`schema.ts`): requires only that the conversation exist
(`notFound`) — there is no participant-membership check.  When
`lastReadMessageId` is JS-truthy (present and nonzero) it bulk-updates
message statuses first, then sets the caller's `lastReadAt` to that
message's `createdAt` (falling back to `now` when the lookup fails).  The
`conversationParticipant.update` throws when the caller has no participant
row; the handler catches it as a 500 — after the bulk update has already
been applied.  On success it notifies the referenced message's sender. -/
def readMessages (db : DB) (uid : Nat) (body : ReadMessagesBody) (now : Nat) :
    Except ApiError Unit × DB × List Dispatch :=
  match findConversation db body.conversationId with
  | none => (.error .notFound, db, [])
  | some _ =>
    match findParticipant (readBulkApplied db uid body) body.conversationId uid with
    | none => (.error .serverError, readBulkApplied db uid body, [])
    | some _ =>
      (.ok (), readFinal db uid body now,
        readEvents (readFinal db uid body now) uid body)

/-- `deleteMessage` (`schema.ts`): `notFound` when the message is absent,
`forbidden` unless the caller is the sender; otherwise a soft delete —
`deletedAt := now`, `content := null`, the row kept — and a
`message_deleted` dispatch to the other participants. -/
def deleteMessage (db : DB) (uid messageId : Nat) (now : Nat) :
    Except ApiError Unit × DB × List Dispatch :=
  match findMessage db messageId with
  | none => (.error .notFound, db, [])
  | some m =>
    if m.senderId ≠ uid then (.error .forbidden, db, [])
    else
      let db' := { db with messages := db.messages.map (fun x =>
        if x.id == messageId then
          { x with deletedAt := some now, content := none, updatedAt := now }
        else x) }
      let others :=
        ((participantsOf db m.conversationId).filter (fun p => p.userId != uid)).map
          (fun p => p.userId)
      (.ok (), db',
        [{ targets := others, eventType := "message_deleted", messageId := some messageId }])

/-- The request body of `initiateCall` (`callType` is `"audio"` or
`"video"`). -/
structure InitiateCallBody where
  conversationId : Nat
  callType : String
deriving DecidableEq

/-- `initiateCall` (`schema.ts`): `notFound` when the conversation is
absent, `forbidden` unless the caller is a participant.  For a `direct`
conversation the receiver is the first participant other than the caller.
Creates a `call_audio`/`call_video` message with `callStatus = "missed"` and
`callStartedAt = now` (the `status` column keeps its schema default),
updates the conversation's `lastMessageAt`, and dispatches `incoming_call`
to the other participants. -/
def callReceiverId (db : DB) (uid : Nat) (conv : Conversation) : Option Nat :=
  if conv.ctype == "direct" then
    ((participantsOf db conv.id).find? (fun p => p.userId != uid)).map (fun p => p.userId)
  else none

/-- The call message `initiateCall` creates: `call_audio`/`call_video` per
the requested type, `callStatus = "missed"`, `callStartedAt = now`, and
`receiverId` resolved for direct conversations (the `status` column keeps
its schema default). -/
def callMessageOf (db : DB) (uid : Nat) (conv : Conversation)
    (body : InitiateCallBody) (now : Nat) : Message :=
  { id := db.nextMessageId, conversationId := body.conversationId,
    senderId := uid, receiverId := callReceiverId db uid conv,
    content := some (if body.callType == "audio" then "语音通话" else "视频通话"),
    mtype := if body.callType == "audio" then "call_audio" else "call_video",
    mediaUrl := none, replyToId := none, status := "sent",
    callStatus := some "missed", callStartedAt := some now,
    callEndedAt := none, callDuration := none,
    createdAt := now, updatedAt := now, deletedAt := none }

def initiateCall (db : DB) (uid : Nat) (body : InitiateCallBody) (now : Nat) :
    Except ApiError Message × DB × List Dispatch :=
  match findConversation db body.conversationId with
  | none => (.error .notFound, db, [])
  | some conv =>
    if !((participantsOf db body.conversationId).any (fun p => p.userId == uid)) then
      (.error .forbidden, db, [])
    else
      (.ok (callMessageOf db uid conv body now),
        { db with
          messages := db.messages ++ [callMessageOf db uid conv body now],
          nextMessageId := db.nextMessageId + 1,
          conversations := db.conversations.map (fun c =>
            if c.id == body.conversationId then
              { c with lastMessageAt := some (callMessageOf db uid conv body now).createdAt,
                       updatedAt := now }
            else c) },
        [{ targets := otherParticipantIds db body.conversationId uid,
           eventType := "incoming_call",
           messageId := some (callMessageOf db uid conv body now).id }])

/-- A live websocket connection handle with its `readyState`. -/
structure Conn where
  id : Nat
  readyState : Nat
deriving DecidableEq

/-- `WebSocket.OPEN`. -/
def WS_OPEN : Nat := 1

/-- The in-memory connection registry: `Map<number, Set<WebSocket>>`. -/
abbrev Registry := List (Nat × List Conn)

/-- `connections.get(userId)`. -/
def connectionsGet (reg : Registry) (uid : Nat) : Option (List Conn) :=
  (reg.find? (fun e => e.1 == uid)).map (fun e => e.2)

/-- One frame actually written to a socket by a broadcast. -/
structure SendFrame where
  userId : Nat
  connId : Nat
  payload : String
deriving DecidableEq

/-- `broadcastToUser` (`websocket.ts`): look the user up in the registry —
when absent nothing happens — and send the serialized message to each of the
user's connections whose `readyState` is `OPEN`.  Its whole effect is the
returned list of frames: nothing is queued, retried, or stored. -/
def broadcastToUser (reg : Registry) (uid : Nat) (payload : String) : List SendFrame :=
  match connectionsGet reg uid with
  | none => []
  | some cs =>
    (cs.filter (fun c => c.readyState == WS_OPEN)).map (fun c =>
      { userId := uid, connId := c.id, payload := payload })

/-- `broadcastToUsers` (`websocket.ts`): the per-user loop of the source,
skipping users with no registry entry. -/
def broadcastToUsers (reg : Registry) (uids : List Nat) (payload : String) :
    List SendFrame :=
  (uids.map (fun u => broadcastToUser reg u payload)).flatten

/-- Did an `Except`-valued handler succeed? -/
def isOkE : Except ε α → Bool
  | .ok _ => true
  | .error _ => false

instance [DecidableEq ε] [DecidableEq α] : DecidableEq (Except ε α) := fun x y =>
  match x, y with
  | .ok a, .ok b =>
    if h : a = b then .isTrue (by rw [h]) else .isFalse (by intro hc; cases hc; exact h rfl)
  | .error a, .error b =>
    if h : a = b then .isTrue (by rw [h]) else .isFalse (by intro hc; cases hc; exact h rfl)
  | .ok _, .error _ => .isFalse (by intro hc; cases hc)
  | .error _, .ok _ => .isFalse (by intro hc; cases hc)

/-- Spec-side predicate, following the spec's words for comparison with the
code: the `lastMessage` annotation of a listed conversation is "the most
recent non-deleted message of that conversation (null if none)". -/
def specLatestNonDeleted (db : DB) (cid : Nat) (lm : Option LastMessageView) : Bool :=
  let nd := db.messages.filter (fun m => m.conversationId == cid && m.deletedAt == none)
  match lm with
  | none => nd.isEmpty
  | some v => nd.any (fun m =>
      m.id == v.id && m.createdAt == v.createdAt &&
        nd.all (fun m2 => m2.createdAt ≤ m.createdAt))

/-! Concrete database states used by witnesses and counterexamples. -/

def uAlice : User := { id := 1, username := "alice", avatar := none, status := "online" }

def uBob : User := { id := 2, username := "bob", avatar := none, status := "offline" }

def uCarol : User := { id := 3, username := "carol", avatar := none, status := "offline" }

def convA1 : Conversation :=
  { id := 1, ctype := "direct", groupId := none, lastMessageAt := some 10,
    createdAt := 5, updatedAt := 10 }

def partA1 : ConversationParticipant :=
  { conversationId := 1, userId := 1, lastReadAt := 0,
    isArchived := false, isMuted := false, joinedAt := 5 }

def partA2 : ConversationParticipant :=
  { conversationId := 1, userId := 2, lastReadAt := 0,
    isArchived := false, isMuted := false, joinedAt := 5 }

def msgHi : Message :=
  { id := 1, conversationId := 1, senderId := 2, receiverId := none,
    content := some "hi", mtype := "text", mediaUrl := none, replyToId := none,
    status := "sent", callStatus := none, callStartedAt := none,
    callEndedAt := none, callDuration := none,
    createdAt := 10, updatedAt := 10, deletedAt := none }

/-- A two-user direct conversation holding one message from Bob. -/
def dbA : DB :=
  { users := [uAlice, uBob, uCarol],
    conversations := [convA1],
    participants := [partA1, partA2],
    messages := [msgHi],
    nextConversationId := 2, nextMessageId := 2 }

/-- A soft-deleted message newer than `msgHi`. -/
def msgDel : Message :=
  { id := 2, conversationId := 1, senderId := 2, receiverId := none,
    content := none, mtype := "text", mediaUrl := none, replyToId := none,
    status := "sent", callStatus := none, callStartedAt := none,
    callEndedAt := none, callDuration := none,
    createdAt := 20, updatedAt := 25, deletedAt := some 25 }

/-- Like `dbA`, but the newest message of the conversation is soft-deleted. -/
def dbB : DB :=
  { dbA with messages := [msgHi, msgDel], nextMessageId := 3 }

/-- Three users and no conversations at all. -/
def dbC : DB :=
  { users := [uAlice, uBob, uCarol], conversations := [], participants := [],
    messages := [], nextConversationId := 1, nextMessageId := 1 }

/-- A `sendMessage` body whose `replyToId` is the JS-falsy `0`. -/
def bodyReplyZero : SendMessageBody :=
  { conversationId := 1, content := "hi again", mtype := "text",
    mediaUrl := none, replyToId := some 0 }

/-- A plain `sendMessage` body with no reply. -/
def bodyPlain : SendMessageBody :=
  { conversationId := 1, content := "yo", mtype := "text",
    mediaUrl := none, replyToId := none }

/-- A `sendMessage` body naming an absent conversation. -/
def bodyNoConv : SendMessageBody :=
  { conversationId := 99, content := "x", mtype := "text",
    mediaUrl := none, replyToId := none }

/-- A `sendMessage` body replying to an absent message id 5. -/
def bodyReplyFive : SendMessageBody :=
  { conversationId := 1, content := "x", mtype := "text",
    mediaUrl := none, replyToId := some 5 }

/-- The formatted entry of `dbA`'s conversation as Alice sees it. -/
def entryA : ConvListEntry := annotateConversation dbA 1 convA1

/-- The message `sendMessage dbA 1 bodyPlain 40` creates. -/
def msgPlain : Message :=
  { id := 2, conversationId := 1, senderId := 1, receiverId := none,
    content := some "yo", mtype := "text", mediaUrl := none, replyToId := none,
    status := "sent", callStatus := none, callStartedAt := none,
    callEndedAt := none, callDuration := none,
    createdAt := 40, updatedAt := 40, deletedAt := none }

/-- The trace `sendMessage dbA 1 bodyPlain 40` produces. -/
def trPlain : List SendAction :=
  [.createMsg msgPlain, .setLastMessageAt 1 40, .setSenderLastReadAt 1 1 40,
   .dispatchEvent [2] "new_message" 2]

/-! Generic list lemmas used by several proofs. -/

theorem find?_congr {p q : α → Bool} (h : ∀ x, p x = q x) :
    ∀ l : List α, l.find? p = l.find? q := by
  intro l
  induction l with
  | nil => rfl
  | cons a l ih =>
    rw [List.find?_cons, List.find?_cons, h a]
    cases q a with
    | true => rfl
    | false => exact ih

theorem find?_append_left_none {p : α → Bool} {l₁ : List α}
    (h : ∀ x ∈ l₁, p x = false) (l₂ : List α) :
    (l₁ ++ l₂).find? p = l₂.find? p := by
  induction l₁ with
  | nil => rfl
  | cons a l ih =>
    rw [List.cons_append, List.find?_cons, h a (List.mem_cons_self a l)]
    exact ih (fun x hx => h x (List.mem_cons_of_mem a hx))

theorem mem_insertBy {r : α → α → Bool} {a x : α} :
    ∀ {l : List α}, x ∈ insertBy r a l ↔ x = a ∨ x ∈ l := by
  intro l
  induction l with
  | nil => simp [insertBy]
  | cons b l ih =>
    rw [insertBy]
    by_cases hr : r a b = true
    · rw [if_pos hr]
      simp only [List.mem_cons]
    · rw [if_neg hr]
      simp only [List.mem_cons, ih]
      tauto

theorem mem_sortBy {r : α → α → Bool} {x : α} :
    ∀ {l : List α}, x ∈ sortBy r l ↔ x ∈ l := by
  intro l
  induction l with
  | nil => simp [sortBy]
  | cons a l ih =>
    simp only [sortBy, mem_insertBy, ih, List.mem_cons]

theorem sortBy_eq_nil_iff {r : α → α → Bool} :
    ∀ {l : List α}, sortBy r l = [] ↔ l = [] := by
  intro l
  cases l with
  | nil => simp [sortBy]
  | cons a l =>
    simp only [sortBy]
    constructor
    · intro h
      have ha : a ∈ insertBy r a (sortBy r l) := mem_insertBy.mpr (Or.inl rfl)
      rw [h] at ha
      exact absurd ha (List.not_mem_nil a)
    · intro h
      exact absurd h (List.cons_ne_nil a l)

/-- The head of a list insertion-sorted by a `Nat` key, descending, is a
maximal element. -/
theorem sortBy_head?_max (k : α → Nat) :
    ∀ (l : List α) (m : α),
      (sortBy (fun a b => decide (k b ≤ k a)) l).head? = some m →
      m ∈ l ∧ ∀ x ∈ l, k x ≤ k m := by
  intro l
  induction l with
  | nil => intro m h; simp [sortBy] at h
  | cons a l ih =>
    intro m h
    rw [sortBy] at h
    cases hs : sortBy (fun a b => decide (k b ≤ k a)) l with
    | nil =>
      rw [hs] at h
      simp only [insertBy, List.head?] at h
      have hl : l = [] := sortBy_eq_nil_iff.mp hs
      subst hl
      cases h
      exact ⟨List.mem_cons_self a [], by intro x hx; simp at hx; subst hx; exact Nat.le_refl _⟩
    | cons b t =>
      rw [hs] at h
      have hb := ih b (by rw [hs]; rfl)
      by_cases hr : (decide (k b ≤ k a) : Bool) = true
      · simp only [insertBy, hr, if_true, List.head?] at h
        cases h
        refine ⟨List.mem_cons_self a l, ?_⟩
        intro x hx
        rcases List.mem_cons.mp hx with rfl | hx
        · exact Nat.le_refl _
        · exact Nat.le_trans (hb.2 x hx) (of_decide_eq_true hr)
      · simp only [insertBy, hr, if_false, List.head?] at h
        cases h
        have hab : k a ≤ k m := by
          have := of_decide_eq_false (Bool.eq_false_iff.mpr hr)
          omega
        refine ⟨List.mem_cons_of_mem a hb.1, ?_⟩
        intro x hx
        rcases List.mem_cons.mp hx with rfl | hx
        · exact hab
        · exact hb.2 x hx

/-- Every frame `broadcastToUser` writes targets the looked-up user. -/
theorem broadcastToUser_frames_target (reg : Registry) (uid : Nat) (payload : String) :
    ∀ s ∈ broadcastToUser reg uid payload, s.userId = uid := by
  intro s hs
  unfold broadcastToUser at hs
  cases hc : connectionsGet reg uid with
  | none => rw [hc] at hs; exact absurd hs (List.not_mem_nil s)
  | some cs =>
    rw [hc] at hs
    obtain ⟨c, _, rfl⟩ := List.mem_map.mp hs
    rfl

/-- C8: dispatch to a user with zero live connections is a no-op —
`broadcastToUser` writes no frame, no frame of a `broadcastToUsers` fan-out
targets that user, and the broadcast functions' entire effect is the
returned frame list (nothing queued or retried, no error raised). -/
theorem broadcast_offline_user_noop (reg : Registry) (uid : Nat)
    (uids : List Nat) (payload : String) (h : connectionsGet reg uid = none) :
    broadcastToUser reg uid payload = [] ∧
    (broadcastToUsers reg uids payload).filter (fun s => s.userId == uid) = [] := by
  have h1 : broadcastToUser reg uid payload = [] := by
    unfold broadcastToUser
    rw [h]
  refine ⟨h1, ?_⟩
  unfold broadcastToUsers
  induction uids with
  | nil => rfl
  | cons u us ih =>
    rw [List.map_cons, List.flatten_cons, List.filter_append, ih, List.append_nil]
    by_cases hu : u = uid
    · rw [hu, h1]
      rfl
    · apply List.filter_eq_nil_iff.mpr
      intro s hs
      have := broadcastToUser_frames_target reg u payload s hs
      simp only [beq_iff_eq, this]
      exact hu

/-- C8 witness: a registry holding only user 2; broadcasting to user 1 is a
no-op. -/
theorem broadcast_offline_user_noop_witness :
    connectionsGet [(2, [{ id := 7, readyState := 1 }])] 1 = none ∧
    broadcastToUser [(2, [{ id := 7, readyState := 1 }])] 1 "x" = [] ∧
    (broadcastToUsers [(2, [{ id := 7, readyState := 1 }])] [1, 2] "x").filter
      (fun s => s.userId == 1) = [] := by
  have h : connectionsGet [(2, [{ id := 7, readyState := 1 }])] 1 = none := by decide
  have hmain := broadcast_offline_user_noop [(2, [{ id := 7, readyState := 1 }])] 1 [1, 2] "x" h
  exact ⟨h, hmain.1, hmain.2⟩

/-- C6: `deleteMessage` never removes the row — on success (caller is the
sender) the row count is preserved and the message's `content` becomes
`null` and `deletedAt` is set while `id` and `createdAt` are preserved;
a missing message yields `notFound` and a non-sender caller (whether or not
the message is already soft-deleted) yields `forbidden`, both leaving the
database unchanged. -/
theorem deleteMessage_soft_delete (db : DB) (uid mid now : Nat) :
    (findMessage db mid = none →
      deleteMessage db uid mid now = (.error .notFound, db, [])) ∧
    (∀ m, findMessage db mid = some m → m.senderId ≠ uid →
      deleteMessage db uid mid now = (.error .forbidden, db, [])) ∧
    (∀ m, findMessage db mid = some m → m.senderId = uid →
      isOkE (deleteMessage db uid mid now).1 = true ∧
      (deleteMessage db uid mid now).2.1.messages =
        db.messages.map (fun x => if x.id == mid then
          { x with deletedAt := some now, content := none, updatedAt := now } else x) ∧
      (deleteMessage db uid mid now).2.1.messages.length = db.messages.length ∧
      ∃ x ∈ (deleteMessage db uid mid now).2.1.messages,
        x.id = m.id ∧ x.createdAt = m.createdAt ∧ x.content = none ∧
        x.deletedAt = some now) := by
  refine ⟨?_, ?_, ?_⟩
  · intro h
    unfold deleteMessage
    rw [h]
  · intro m hm hs
    unfold deleteMessage
    simp only [hm]
    rw [if_pos hs]
  · intro m hm hs
    have heq : deleteMessage db uid mid now =
        (.ok (), { db with messages := db.messages.map (fun x => if x.id == mid then
            { x with deletedAt := some now, content := none, updatedAt := now } else x) },
          [{ targets := ((participantsOf db m.conversationId).filter
              (fun p => p.userId != uid)).map (fun p => p.userId),
             eventType := "message_deleted", messageId := some mid }]) := by
      unfold deleteMessage
      simp only [hm]
      rw [if_neg (fun hcon => hcon hs)]
    rw [heq]
    refine ⟨rfl, rfl, List.length_map _ _, ?_⟩
    have hm' : db.messages.find? (fun x => x.id == mid) = some m := hm
    have hmem : m ∈ db.messages := List.mem_of_find?_eq_some hm'
    have hpred : (m.id == mid) = true := by
      have := List.find?_some hm'
      exact this
    refine ⟨{ m with deletedAt := some now, content := none, updatedAt := now }, ?_, ?_, rfl, rfl, rfl⟩
    · have hmm := List.mem_map_of_mem (fun x => if x.id == mid then
        { x with deletedAt := some now, content := none, updatedAt := now } else x) hmem
      beta_reduce at hmm
      rw [if_pos hpred] at hmm
      exact hmm
    · rfl

/-- C6 witness: in `dbA`, Bob deletes his own message 1 successfully; Alice
cannot delete it; message 5 does not exist. -/
theorem deleteMessage_soft_delete_witness :
    deleteMessage dbA 1 5 50 = (.error .notFound, dbA, []) ∧
    deleteMessage dbA 1 1 50 = (.error .forbidden, dbA, []) ∧
    (isOkE (deleteMessage dbA 2 1 50).1 = true ∧
      ∃ x ∈ (deleteMessage dbA 2 1 50).2.1.messages,
        x.id = msgHi.id ∧ x.createdAt = msgHi.createdAt ∧ x.content = none ∧
        x.deletedAt = some 50) := by
  have h5 := (deleteMessage_soft_delete dbA 1 5 50).1 (by decide)
  have h1 := (deleteMessage_soft_delete dbA 1 1 50).2.1 msgHi (by decide) (by decide)
  have h2 := (deleteMessage_soft_delete dbA 2 1 50).2.2 msgHi (by decide) (by decide)
  exact ⟨h5, h1, h2.1, h2.2.2.2⟩

/-- C10: every successful `getMessages` call — whatever the page, limit or
`before` cursor — sets the caller's participant `lastReadAt` for that
conversation to `now`, leaving the messages untouched; consequently, when no
message of the conversation postdates `now`, the caller's unread-count query
over the resulting state is zero. -/
theorem getMessages_resets_lastReadAt (db : DB) (uid cid page limit : Nat)
    (before : Option Nat) (now : Nat)
    (hok : isOkE (getMessages db uid cid page limit before now).1 = true) :
    (getMessages db uid cid page limit before now).2.messages = db.messages ∧
    (∀ p ∈ (getMessages db uid cid page limit before now).2.participants,
      p.conversationId = cid → p.userId = uid → p.lastReadAt = now) ∧
    ((∀ m ∈ db.messages, m.conversationId = cid → m.createdAt ≤ now) →
      unreadCountQuery (getMessages db uid cid page limit before now).2 cid uid now = 0) := by
  cases hp : findParticipant db cid uid with
  | none =>
    exfalso
    unfold getMessages at hok
    rw [hp] at hok
    exact Bool.false_ne_true hok
  | some q =>
    have heq : (getMessages db uid cid page limit before now).2 =
        { db with participants := db.participants.map (fun p =>
          if p.conversationId == cid && p.userId == uid then
            { p with lastReadAt := now } else p) } := by
      unfold getMessages
      simp only [hp]
    rw [heq]
    refine ⟨rfl, ?_, ?_⟩
    · intro p hpmem hpc hpu
      obtain ⟨p₀, _, rfl⟩ := List.mem_map.mp hpmem
      by_cases hcond : (p₀.conversationId == cid && p₀.userId == uid) = true
      · rw [if_pos hcond]
      · rw [if_neg hcond] at hpc hpu ⊢
        exfalso
        apply hcond
        rw [Bool.and_eq_true, beq_iff_eq, beq_iff_eq]
        exact ⟨hpc, hpu⟩
    · intro hall
      unfold unreadCountQuery
      have hnil : (db.messages.filter (fun m =>
          m.conversationId == cid && now < m.createdAt && m.senderId != uid)) = [] := by
        apply List.filter_eq_nil_iff.mpr
        intro m hm hcon
        rw [Bool.and_eq_true, Bool.and_eq_true, beq_iff_eq, decide_eq_true_eq] at hcon
        exact absurd hcon.1.2 (Nat.not_lt.mpr (hall m hm hcon.1.1))
      simp only [hnil]
      rfl

/-- C10 witness: Alice fetches history of conversation 1 in `dbA` at time
100; her `lastReadAt` becomes 100 and her unread count drops to zero. -/
theorem getMessages_resets_lastReadAt_witness :
    isOkE (getMessages dbA 1 1 1 20 none 100).1 = true ∧
    (getMessages dbA 1 1 1 20 none 100).2.messages = dbA.messages ∧
    (∀ p ∈ (getMessages dbA 1 1 1 20 none 100).2.participants,
      p.conversationId = 1 → p.userId = 1 → p.lastReadAt = 100) ∧
    unreadCountQuery (getMessages dbA 1 1 1 20 none 100).2 1 1 100 = 0 := by
  have hok : isOkE (getMessages dbA 1 1 1 20 none 100).1 = true := by decide
  have hmain := getMessages_resets_lastReadAt dbA 1 1 1 20 none 100 hok
  exact ⟨hok, hmain.1, hmain.2.1, hmain.2.2 (by decide)⟩

/-- C5 counterexample: `if (replyToId)` is JS-truthiness, so a given
`replyToId` of 0 whose referenced message does not exist skips the
`invalidArgument` check entirely — the dangling foreign key then surfaces as
a 500, not as `invalidArgument`, refuting the claim as stated (though still
no message is created). -/
theorem sendMessage_reply_zero_cex :
    bodyReplyZero.replyToId = some 0 ∧
    findMessage dbA 0 = none ∧
    (sendMessage dbA 1 bodyReplyZero 50).1 ≠ .error .invalidArgument ∧
    (sendMessage dbA 1 bodyReplyZero 50).1 = .error .serverError ∧
    (sendMessage dbA 1 bodyReplyZero 50).2.1 = dbA := by
  decide

/-- C5 (amended): `sendMessage` fails `notFound` when the conversation does
not exist, `forbidden` when the caller is not a participant, and — for a
given nonzero `replyToId` — `invalidArgument` unless the referenced message
exists in the same conversation; each failure leaves the database unchanged
(no message row is created) and dispatches nothing. -/
theorem sendMessage_error_cases (db : DB) (uid : Nat) (body : SendMessageBody)
    (now : Nat) :
    (findConversation db body.conversationId = none →
      sendMessage db uid body now = (.error .notFound, db, [])) ∧
    ((findConversation db body.conversationId).isSome →
      (∀ p ∈ participantsOf db body.conversationId, p.userId ≠ uid) →
      sendMessage db uid body now = (.error .forbidden, db, [])) ∧
    (∀ r, (findConversation db body.conversationId).isSome →
      (∃ p ∈ participantsOf db body.conversationId, p.userId = uid) →
      body.replyToId = some r → r ≠ 0 →
      (∀ rm, findMessage db r = some rm → rm.conversationId ≠ body.conversationId) →
      sendMessage db uid body now = (.error .invalidArgument, db, [])) := by
  refine ⟨?_, ?_, ?_⟩
  · intro h
    have htr : sendMessageTrace db uid body now = .error .notFound := by
      unfold sendMessageTrace
      rw [h]
    unfold sendMessage
    rw [htr]
  · intro h hnp
    obtain ⟨c, hc⟩ := Option.isSome_iff_exists.mp h
    have hany : (participantsOf db body.conversationId).any
        (fun p => p.userId == uid) = false := by
      rw [List.any_eq_false]
      intro p hp
      simp only [beq_iff_eq]
      exact hnp p hp
    have htr : sendMessageTrace db uid body now = .error .forbidden := by
      unfold sendMessageTrace
      simp only [hc, hany, Bool.not_false, if_true]
    unfold sendMessage
    rw [htr]
  · intro r h hpart hr hr0 hrm
    obtain ⟨c, hc⟩ := Option.isSome_iff_exists.mp h
    obtain ⟨p, hpmem, hpu⟩ := hpart
    have hany : (participantsOf db body.conversationId).any
        (fun p => p.userId == uid) = true :=
      List.any_eq_true.mpr ⟨p, hpmem, by simp only [beq_iff_eq]; exact hpu⟩
    have hcheck : replyCheckFails db body = true := by
      unfold replyCheckFails
      simp only [hr]
      rw [if_pos hr0]
      cases hfm : findMessage db r with
      | none => rfl
      | some rm =>
        simp only [bne_iff_ne]
        exact hrm rm hfm
    have htr : sendMessageTrace db uid body now = .error .invalidArgument := by
      unfold sendMessageTrace
      simp only [hc, hany, Bool.not_true, Bool.false_eq_true, if_false, hcheck, if_true]
    unfold sendMessage
    rw [htr]

/-- C5 witness: in `dbA`, conversation 99 is absent, Carol (user 3) is not a
participant of conversation 1, and a reply to the nonexistent message 5 is
rejected. -/
theorem sendMessage_error_cases_witness :
    sendMessage dbA 1 bodyNoConv 50 = (.error .notFound, dbA, []) ∧
    sendMessage dbA 3 bodyPlain 50 = (.error .forbidden, dbA, []) ∧
    sendMessage dbA 1 bodyReplyFive 50 = (.error .invalidArgument, dbA, []) := by
  refine ⟨?_, ?_, ?_⟩
  · exact (sendMessage_error_cases dbA 1 bodyNoConv 50).1 (by decide)
  · exact (sendMessage_error_cases dbA 3 bodyPlain 50).2.1 (by decide) (by decide)
  · exact (sendMessage_error_cases dbA 1 bodyReplyFive 50).2.2 5
      (by decide) ⟨partA1, by decide, by decide⟩ rfl (by decide) (by decide)

/-- `markReadUpdate` never changes a message's id. -/
theorem markReadUpdate_id (cid uid lastId : Nat) (m : Message) :
    (markReadUpdate cid uid lastId m).id = m.id := by
  unfold markReadUpdate
  split
  · rfl
  · rfl

/-- `markReadUpdate` never changes a message's createdAt. -/
theorem markReadUpdate_createdAt (cid uid lastId : Nat) (m : Message) :
    (markReadUpdate cid uid lastId m).createdAt = m.createdAt := by
  unfold markReadUpdate
  split
  · rfl
  · rfl

/-- Looking a message up by id commutes with the bulk status update. -/
theorem findMessage_markReadUpdate (db : DB) (cid uid lastId x : Nat) :
    findMessage { db with messages := db.messages.map (markReadUpdate cid uid lastId) } x =
      (findMessage db x).map (markReadUpdate cid uid lastId) := by
  show (db.messages.map (markReadUpdate cid uid lastId)).find? (fun m => m.id == x) =
    (db.messages.find? (fun m => m.id == x)).map (markReadUpdate cid uid lastId)
  rw [List.find?_map (markReadUpdate cid uid lastId) db.messages]
  congr 1
  apply find?_congr
  intro m
  show ((markReadUpdate cid uid lastId m).id == x) = (m.id == x)
  rw [markReadUpdate_id]

/-- C3: after a successful `readMessages(userId, conversationId, some X)`
(with the JS-truthy `X ≠ 0`), the message table is exactly the bulk update:
every message of the conversation with id ≤ X, another sender, and status
`sent`/`delivered` is now `read`; every message with id > X is unchanged;
and the caller's participant `lastReadAt` is message X's `createdAt`,
falling back to `now` when that lookup fails. -/
theorem readMessages_marks_read (db : DB) (uid cid X now : Nat) (hX : X ≠ 0)
    (hok : isOkE (readMessages db uid
      { conversationId := cid, lastReadMessageId := some X } now).1 = true) :
    (readMessages db uid { conversationId := cid, lastReadMessageId := some X } now).2.1.messages =
      db.messages.map (markReadUpdate cid uid X) ∧
    (∀ m ∈ db.messages, m.conversationId = cid → m.id ≤ X → m.senderId ≠ uid →
      (m.status = "sent" ∨ m.status = "delivered") →
      { m with status := "read" } ∈
        (readMessages db uid { conversationId := cid, lastReadMessageId := some X } now).2.1.messages) ∧
    (∀ m ∈ db.messages, X < m.id →
      m ∈ (readMessages db uid
        { conversationId := cid, lastReadMessageId := some X } now).2.1.messages) ∧
    (∀ p ∈ (readMessages db uid
        { conversationId := cid, lastReadMessageId := some X } now).2.1.participants,
      p.conversationId = cid → p.userId = uid →
      p.lastReadAt = (match findMessage db X with
        | some lm => lm.createdAt
        | none => now)) := by
  have htk : truthyLastRead { conversationId := cid, lastReadMessageId := some X } =
      some X := by
    unfold truthyLastRead
    exact if_pos hX
  have hbulk : readBulkApplied db uid { conversationId := cid, lastReadMessageId := some X } =
      { db with messages := db.messages.map (markReadUpdate cid uid X) } := by
    unfold readBulkApplied
    simp only [htk]
  cases hc : findConversation db cid with
  | none =>
    exfalso
    unfold readMessages at hok
    rw [hc] at hok
    exact Bool.false_ne_true hok
  | some c =>
    cases hp : findParticipant (readBulkApplied db uid
        { conversationId := cid, lastReadMessageId := some X }) cid uid with
    | none =>
      exfalso
      unfold readMessages at hok
      simp only [hc, hp] at hok
      exact Bool.false_ne_true hok
    | some q =>
      have heq : (readMessages db uid
          { conversationId := cid, lastReadMessageId := some X } now).2.1 =
          readFinal db uid { conversationId := cid, lastReadMessageId := some X } now := by
        unfold readMessages
        simp only [hc, hp]
      have hmsgs : (readFinal db uid
          { conversationId := cid, lastReadMessageId := some X } now).messages =
          db.messages.map (markReadUpdate cid uid X) := by
        unfold readFinal
        rw [hbulk]
      have hnla : readNewLastReadAt db uid
          { conversationId := cid, lastReadMessageId := some X } now =
          (match findMessage db X with
            | some lm => lm.createdAt
            | none => now) := by
        unfold readNewLastReadAt
        simp only [htk]
        rw [hbulk, findMessage_markReadUpdate]
        cases hfm : findMessage db X with
        | none => rfl
        | some lm =>
          show (markReadUpdate cid uid X lm).createdAt = lm.createdAt
          exact markReadUpdate_createdAt cid uid X lm
      have hparts : (readFinal db uid
          { conversationId := cid, lastReadMessageId := some X } now).participants =
          db.participants.map (fun p =>
            if p.conversationId == cid && p.userId == uid then
              { p with lastReadAt :=
                  (readNewLastReadAt db uid ⟨cid, some X⟩ now) }
            else p) := by
        unfold readFinal
        rw [hbulk]
      rw [heq]
      refine ⟨hmsgs, ?_, ?_, ?_⟩
      · intro m hm hmc hmi hms hmst
        rw [hmsgs]
        have himg := List.mem_map_of_mem (markReadUpdate cid uid X) hm
        have hcond : (m.conversationId == cid && m.id ≤ X && m.senderId != uid &&
            (m.status == "sent" || m.status == "delivered")) = true := by
          rw [Bool.and_eq_true, Bool.and_eq_true, Bool.and_eq_true]
          refine ⟨⟨⟨?_, ?_⟩, ?_⟩, ?_⟩
          · exact beq_iff_eq.mpr hmc
          · exact decide_eq_true hmi
          · exact bne_iff_ne.mpr hms
          · rcases hmst with h1 | h1
            · rw [Bool.or_eq_true]
              exact Or.inl (beq_iff_eq.mpr h1)
            · rw [Bool.or_eq_true]
              exact Or.inr (beq_iff_eq.mpr h1)
        have : markReadUpdate cid uid X m = { m with status := "read" } := by
          unfold markReadUpdate
          rw [if_pos hcond]
        rw [this] at himg
        exact himg
      · intro m hm hmi
        rw [hmsgs]
        have himg := List.mem_map_of_mem (markReadUpdate cid uid X) hm
        have : markReadUpdate cid uid X m = m := by
          unfold markReadUpdate
          rw [if_neg ?hne]
          case hne =>
            intro hcond
            rw [Bool.and_eq_true, Bool.and_eq_true, Bool.and_eq_true] at hcond
            have := of_decide_eq_true hcond.1.1.2
            omega
        rw [this] at himg
        exact himg
      · intro p hpmem hpc hpu
        rw [hparts] at hpmem
        obtain ⟨p₀, _, rfl⟩ := List.mem_map.mp hpmem
        by_cases hcond : (p₀.conversationId == cid && p₀.userId == uid) = true
        · rw [if_pos hcond]
          exact hnla
        · rw [if_neg hcond] at hpc hpu ⊢
          exfalso
          apply hcond
          rw [Bool.and_eq_true, beq_iff_eq, beq_iff_eq]
          exact ⟨hpc, hpu⟩

/-- C3 witness: Alice marks conversation 1 read up to message 1 in `dbA`:
Bob's `sent` message becomes `read` and her `lastReadAt` becomes that
message's `createdAt` (10). -/
theorem readMessages_marks_read_witness :
    isOkE (readMessages dbA 1
      { conversationId := 1, lastReadMessageId := some 1 } 30).1 = true ∧
    (readMessages dbA 1 { conversationId := 1, lastReadMessageId := some 1 } 30).2.1.messages =
      dbA.messages.map (markReadUpdate 1 1 1) ∧
    { msgHi with status := "read" } ∈
      (readMessages dbA 1 { conversationId := 1, lastReadMessageId := some 1 } 30).2.1.messages ∧
    (∀ p ∈ (readMessages dbA 1
        { conversationId := 1, lastReadMessageId := some 1 } 30).2.1.participants,
      p.conversationId = 1 → p.userId = 1 →
      p.lastReadAt = (match findMessage dbA 1 with
        | some lm => lm.createdAt
        | none => 30)) := by
  have hok : isOkE (readMessages dbA 1
      { conversationId := 1, lastReadMessageId := some 1 } 30).1 = true := by decide
  have hmain := readMessages_marks_read dbA 1 1 1 30 (by decide) hok
  exact ⟨hok, hmain.1,
    hmain.2.1 msgHi (by decide) (by decide) (by decide) (by decide) (Or.inl (by decide)),
    hmain.2.2.2⟩

/-- C9: `readMessages` performs no participant-membership check — it can
never fail `forbidden`, `notFound` arises only from a missing conversation,
and for an existing conversation with a truthy `lastReadMessageId` the bulk
status update executes even when the caller is not a participant (the
participant update then throws, surfacing as a 500 with the message updates
already applied). -/
theorem readMessages_no_membership_check (db : DB) (uid : Nat)
    (body : ReadMessagesBody) (now : Nat) :
    ((readMessages db uid body now).1 ≠ .error .forbidden) ∧
    ((readMessages db uid body now).1 = .error .notFound →
      findConversation db body.conversationId = none) ∧
    (∀ X, (findConversation db body.conversationId).isSome →
      body.lastReadMessageId = some X → X ≠ 0 →
      findParticipant db body.conversationId uid = none →
      (readMessages db uid body now).1 = .error .serverError ∧
      (readMessages db uid body now).2.1.messages =
        db.messages.map (markReadUpdate body.conversationId uid X)) := by
  refine ⟨?_, ?_, ?_⟩
  · unfold readMessages
    split
    · intro hcon
      injection hcon with hcon'
      exact ApiError.noConfusion hcon'
    · split
      · intro hcon
        injection hcon with hcon'
        exact ApiError.noConfusion hcon'
      · intro hcon
        exact Except.noConfusion hcon
  · unfold readMessages
    split
    · intro _
      assumption
    · split
      · intro hcon
        injection hcon with hcon'
        exact ApiError.noConfusion hcon'
      · intro hcon
        exact Except.noConfusion hcon
  · intro X h hbX hX hnp
    obtain ⟨c, hc⟩ := Option.isSome_iff_exists.mp h
    have htk : truthyLastRead body = some X := by
      unfold truthyLastRead
      rw [hbX]
      exact if_pos hX
    have hbulk : readBulkApplied db uid body =
        { db with messages := db.messages.map (markReadUpdate body.conversationId uid X) } := by
      unfold readBulkApplied
      simp only [htk]
    have hnp1 : findParticipant (readBulkApplied db uid body)
        body.conversationId uid = none := by
      rw [hbulk]
      exact hnp
    constructor
    · unfold readMessages
      simp only [hc, hnp1]
    · unfold readMessages
      simp only [hc, hnp1]
      rw [hbulk]

/-- C9 witness: Carol (user 3) is no participant of conversation 1 in `dbA`,
yet her `readMessages` call is not `forbidden`: it marks Bob's message
`read` and then fails with the 500 from the missing participant row. -/
theorem readMessages_no_membership_check_witness :
    ((readMessages dbA 3 { conversationId := 1, lastReadMessageId := some 1 } 30).1 ≠
      .error .forbidden) ∧
    findParticipant dbA 1 3 = none ∧
    (readMessages dbA 3 { conversationId := 1, lastReadMessageId := some 1 } 30).1 =
      .error .serverError ∧
    (readMessages dbA 3 { conversationId := 1, lastReadMessageId := some 1 } 30).2.1.messages =
      dbA.messages.map (markReadUpdate 1 3 1) := by
  have hmain := readMessages_no_membership_check dbA 3
    { conversationId := 1, lastReadMessageId := some 1 } 30
  have hcase := hmain.2.2 1 (by decide) rfl (by decide) (by decide)
  exact ⟨hmain.1, by decide, hcase.1, hcase.2⟩

/-- C1: every successful `sendMessage` produces the trace
create-message (status `sent`), set `lastMessageAt`, set the sender's
`lastReadAt`, and only then the `new_message` dispatch to the other
participants: the three database writes all precede the dispatch, and the
state reached after just those writes already contains the message, the
conversation's new `lastMessageAt`, and the sender's refreshed
`lastReadAt`. -/
theorem sendMessage_mutations_before_dispatch (db : DB) (uid : Nat)
    (body : SendMessageBody) (now : Nat) (tr : List SendAction) (m : Message)
    (h : sendMessageTrace db uid body now = .ok (tr, m)) :
    ∃ targets,
      tr = [.createMsg m,
            .setLastMessageAt body.conversationId m.createdAt,
            .setSenderLastReadAt body.conversationId uid now,
            .dispatchEvent targets "new_message" m.id] ∧
      m.status = "sent" ∧
      (∀ a ∈ tr.take 3, a.isDispatch = false) ∧
      targets = ((participantsOf db body.conversationId).filter
        (fun p => p.userId != uid)).map (fun p => p.userId) ∧
      m ∈ ((tr.take 3).foldl applyAction db).messages ∧
      (∀ c ∈ ((tr.take 3).foldl applyAction db).conversations,
        c.id = body.conversationId → c.lastMessageAt = some m.createdAt) ∧
      (∀ p ∈ ((tr.take 3).foldl applyAction db).participants,
        p.conversationId = body.conversationId → p.userId = uid →
        p.lastReadAt = now) ∧
      sendMessage db uid body now =
        (.ok m, tr.foldl applyAction db,
          [{ targets := targets, eventType := "new_message", messageId := some m.id }]) := by
  have hcopy := h
  unfold sendMessageTrace at h
  split at h
  · exact Except.noConfusion h
  · split at h
    · exact Except.noConfusion h
    · split at h
      · exact Except.noConfusion h
      · split at h
        · exact Except.noConfusion h
        · rw [Except.ok.injEq, Prod.mk.injEq] at h
          obtain ⟨htr, hm⟩ := h
          subst hm
          subst htr
          refine ⟨otherParticipantIds db body.conversationId uid,
            rfl, rfl, ?_, rfl, ?_, ?_, ?_, ?_⟩
          · intro a ha
            simp only [List.take, List.mem_cons, List.not_mem_nil, or_false] at ha
            rcases ha with rfl | rfl | rfl
            · rfl
            · rfl
            · rfl
          · show _ ∈ (db.messages ++ [_])
            exact List.mem_append_right _ (List.mem_singleton.mpr rfl)
          · intro c hc hcid
            have hc' : c ∈ db.conversations.map (fun c₀ =>
                if c₀.id == body.conversationId then
                  { c₀ with
                    lastMessageAt := some (newMessageOf db uid body now).createdAt,
                    updatedAt := (newMessageOf db uid body now).createdAt }
                else c₀) := hc
            obtain ⟨c₀, _, rfl⟩ := List.mem_map.mp hc'
            by_cases hcond : (c₀.id == body.conversationId) = true
            · rw [if_pos hcond]
            · rw [if_neg hcond] at hcid ⊢
              exact absurd (beq_iff_eq.mpr hcid) hcond
          · intro p hp hpc hpu
            have hp' : p ∈ db.participants.map (fun p₀ =>
                if p₀.conversationId == body.conversationId && p₀.userId == uid then
                  { p₀ with lastReadAt := now }
                else p₀) := hp
            obtain ⟨p₀, _, rfl⟩ := List.mem_map.mp hp'
            by_cases hcond : (p₀.conversationId == body.conversationId && p₀.userId == uid) = true
            · rw [if_pos hcond]
            · rw [if_neg hcond] at hpc hpu ⊢
              exfalso
              apply hcond
              rw [Bool.and_eq_true, beq_iff_eq, beq_iff_eq]
              exact ⟨hpc, hpu⟩
          · unfold sendMessage
            rw [hcopy]
            rfl

/-- C1 witness: Alice sends "yo" in `dbA` at time 40; the trace is exactly
the three writes followed by the dispatch to Bob. -/
theorem sendMessage_mutations_before_dispatch_witness :
    sendMessageTrace dbA 1 bodyPlain 40 = .ok (trPlain, msgPlain) ∧
    (∃ targets,
      trPlain = [.createMsg msgPlain,
            .setLastMessageAt bodyPlain.conversationId msgPlain.createdAt,
            .setSenderLastReadAt bodyPlain.conversationId 1 40,
            .dispatchEvent targets "new_message" msgPlain.id] ∧
      msgPlain.status = "sent" ∧
      (∀ a ∈ trPlain.take 3, a.isDispatch = false) ∧
      targets = ((participantsOf dbA bodyPlain.conversationId).filter
        (fun p => p.userId != 1)).map (fun p => p.userId) ∧
      msgPlain ∈ ((trPlain.take 3).foldl applyAction dbA).messages ∧
      (∀ c ∈ ((trPlain.take 3).foldl applyAction dbA).conversations,
        c.id = bodyPlain.conversationId → c.lastMessageAt = some msgPlain.createdAt) ∧
      (∀ p ∈ ((trPlain.take 3).foldl applyAction dbA).participants,
        p.conversationId = bodyPlain.conversationId → p.userId = 1 →
        p.lastReadAt = 40) ∧
      sendMessage dbA 1 bodyPlain 40 =
        (.ok msgPlain, trPlain.foldl applyAction dbA,
          [{ targets := targets, eventType := "new_message",
             messageId := some msgPlain.id }])) := by
  have h : sendMessageTrace dbA 1 bodyPlain 40 = .ok (trPlain, msgPlain) := by decide
  exact ⟨h, sendMessage_mutations_before_dispatch dbA 1 bodyPlain 40 trPlain msgPlain h⟩

/-- C7: `initiateCall` fails `forbidden` unless the caller is a participant;
in a two-party direct conversation it creates a message of type
`call_audio`/`call_video` matching the requested kind, with
`callStatus = "missed"`, `callStartedAt = now`, and `receiverId` equal to
the other participant, and dispatches `incoming_call` to the other
participants. -/
theorem initiateCall_direct_call (db : DB) (uid : Nat) (body : InitiateCallBody)
    (now : Nat) (conv : Conversation)
    (hc : findConversation db body.conversationId = some conv) :
    ((¬ ∃ p ∈ participantsOf db body.conversationId, p.userId = uid) →
      initiateCall db uid body now = (.error .forbidden, db, [])) ∧
    (∀ other, conv.ctype = "direct" → uid ≠ other →
      (∃ p ∈ participantsOf db body.conversationId, p.userId = uid) →
      (∃ p ∈ participantsOf db body.conversationId, p.userId = other) →
      (∀ p ∈ participantsOf db body.conversationId, p.userId = uid ∨ p.userId = other) →
      ∃ m, (initiateCall db uid body now).1 = .ok m ∧
        m.mtype = (if body.callType == "audio" then "call_audio" else "call_video") ∧
        m.callStatus = some "missed" ∧
        m.callStartedAt = some now ∧
        m.receiverId = some other ∧
        m ∈ (initiateCall db uid body now).2.1.messages ∧
        (initiateCall db uid body now).2.2 =
          [{ targets := otherParticipantIds db body.conversationId uid,
             eventType := "incoming_call", messageId := some m.id }] ∧
        other ∈ otherParticipantIds db body.conversationId uid) := by
  have hcid : conv.id = body.conversationId := by
    have := List.find?_some hc
    exact beq_iff_eq.mp this
  constructor
  · intro hnp
    have hany : ((participantsOf db body.conversationId).any
        (fun p => p.userId == uid)) = false := by
      rw [List.any_eq_false]
      intro p hp
      simp only [beq_iff_eq]
      intro heq
      exact hnp ⟨p, hp, heq⟩
    unfold initiateCall
    simp only [hc, hany, Bool.not_false, if_true]
  · intro other hdir hne hself hother hall
    obtain ⟨ps, hpsmem, hpsu⟩ := hself
    have hany : ((participantsOf db body.conversationId).any
        (fun p => p.userId == uid)) = true :=
      List.any_eq_true.mpr ⟨ps, hpsmem, by simp only [beq_iff_eq]; exact hpsu⟩
    have hnotc : ¬ ((!((participantsOf db body.conversationId).any
        (fun p => p.userId == uid))) = true) := by
      rw [hany]
      exact Bool.false_ne_true
    have heq : initiateCall db uid body now =
        (.ok (callMessageOf db uid conv body now),
          { db with
            messages := db.messages ++ [callMessageOf db uid conv body now],
            nextMessageId := db.nextMessageId + 1,
            conversations := db.conversations.map (fun c =>
              if c.id == body.conversationId then
                { c with
                  lastMessageAt := some (callMessageOf db uid conv body now).createdAt,
                  updatedAt := now }
              else c) },
          [{ targets := otherParticipantIds db body.conversationId uid,
             eventType := "incoming_call",
             messageId := some (callMessageOf db uid conv body now).id }]) := by
      unfold initiateCall
      simp only [hc]
      rw [if_neg hnotc]
    have hrecv : callReceiverId db uid conv = some other := by
      unfold callReceiverId
      rw [if_pos (beq_iff_eq.mpr hdir), hcid]
      obtain ⟨po, hpomem, hpou⟩ := hother
      have hpopred : (po.userId != uid) = true := by
        rw [bne_iff_ne, hpou]
        exact fun hcon => hne hcon.symm
      have hsome : ((participantsOf db body.conversationId).find?
          (fun p => p.userId != uid)).isSome :=
        List.find?_isSome.mpr ⟨po, hpomem, hpopred⟩
      obtain ⟨q, hq⟩ := Option.isSome_iff_exists.mp hsome
      have hqmem := List.mem_of_find?_eq_some hq
      have hqpred : (q.userId != uid) = true := by
        have := List.find?_some hq
        exact this
      have hquid : q.userId = other := by
        rcases hall q hqmem with h1 | h1
        · exact absurd h1 (bne_iff_ne.mp hqpred)
        · exact h1
      rw [hq]
      simp only [Option.map_some']
      rw [hquid]
    refine ⟨callMessageOf db uid conv body now, ?_, rfl, rfl, rfl, ?_, ?_, ?_, ?_⟩
    · rw [heq]
    · show (callMessageOf db uid conv body now).receiverId = some other
      show callReceiverId db uid conv = some other
      exact hrecv
    · rw [heq]
      exact List.mem_append_right _ (List.mem_singleton.mpr rfl)
    · rw [heq]
    · obtain ⟨po, hpomem, hpou⟩ := hother
      have hpopred : (po.userId != uid) = true := by
        rw [bne_iff_ne, hpou]
        exact fun hcon => hne hcon.symm
      unfold otherParticipantIds
      exact List.mem_map.mpr ⟨po, List.mem_filter.mpr ⟨hpomem, hpopred⟩, hpou⟩

/-- C7 witness: Alice starts an audio call in conversation 1 of `dbA`: the
created message is `call_audio`, `missed`, started at 60, with receiver
Bob, and `incoming_call` goes to Bob. -/
theorem initiateCall_direct_call_witness :
    ∃ m, (initiateCall dbA 1 { conversationId := 1, callType := "audio" } 60).1 = .ok m ∧
      m.mtype = (if ("audio" : String) == "audio" then "call_audio" else "call_video") ∧
      m.callStatus = some "missed" ∧
      m.callStartedAt = some 60 ∧
      m.receiverId = some 2 ∧
      m ∈ (initiateCall dbA 1 { conversationId := 1, callType := "audio" } 60).2.1.messages ∧
      (initiateCall dbA 1 { conversationId := 1, callType := "audio" } 60).2.2 =
        [{ targets := otherParticipantIds dbA 1 1,
           eventType := "incoming_call", messageId := some m.id }] ∧
      2 ∈ otherParticipantIds dbA 1 1 := by
  exact (initiateCall_direct_call dbA 1 { conversationId := 1, callType := "audio" }
      60 convA1 (by decide)).2 2 (by decide) (by decide)
      ⟨partA1, by decide, by decide⟩ ⟨partA2, by decide, by decide⟩
      (by decide)

/-- The direct-conversation lookup predicate is symmetric in the two
users. -/
theorem directMatch_symm (db : DB) (a b : Nat) (c : Conversation) :
    directMatch db b a c = directMatch db a b c := by
  unfold directMatch
  have h1 : (participantsOf db c.id).all (fun p => p.userId == b || p.userId == a)
      = (participantsOf db c.id).all (fun p => p.userId == a || p.userId == b) := by
    congr 1
    funext p
    exact Bool.or_comm _ _
  rw [h1]
  cases hx : (participantsOf db c.id).any (fun p => p.userId == a) <;>
    cases hy : (participantsOf db c.id).any (fun p => p.userId == b) <;>
      simp [hx, hy]

/-- Participant rows of an untouched conversation are unaffected by a
direct-conversation creation. -/
theorem participantsOf_created_ne (db : DB) (a b now x : Nat)
    (hx : x ≠ db.nextConversationId) :
    participantsOf (createdDirectDB db a b now) x = participantsOf db x := by
  unfold participantsOf createdDirectDB
  rw [List.filter_append]
  have hnil : [newDirectParticipant db a now, newDirectParticipant db b now].filter
      (fun p => p.conversationId == x) = [] := by
    have hne : (db.nextConversationId == x) = false := by
      rw [beq_eq_false_iff_ne]
      exact fun hcon => hx hcon.symm
    simp [newDirectParticipant, hne]
  rw [hnil, List.append_nil]

/-- The participant rows of a freshly created direct conversation are
exactly its two new rows. -/
theorem participantsOf_created_self (db : DB) (a b now : Nat)
    (hfresh : ∀ p ∈ db.participants, p.conversationId < db.nextConversationId) :
    participantsOf (createdDirectDB db a b now) db.nextConversationId =
      [newDirectParticipant db a now, newDirectParticipant db b now] := by
  unfold participantsOf createdDirectDB
  rw [List.filter_append]
  have hold : db.participants.filter
      (fun p => p.conversationId == db.nextConversationId) = [] := by
    apply List.filter_eq_nil_iff.mpr
    intro p hp
    simp only [beq_iff_eq]
    exact Nat.ne_of_lt (hfresh p hp)
  rw [hold, List.nil_append]
  simp [newDirectParticipant]

/-- An old conversation matches the pair the same way before and after a
creation. -/
theorem directMatch_created_old (db : DB) (a b now x y : Nat) (c : Conversation)
    (hcid : c.id ≠ db.nextConversationId) :
    directMatch (createdDirectDB db a b now) x y c = directMatch db x y c := by
  unfold directMatch
  rw [participantsOf_created_ne db a b now c.id hcid]

/-- The freshly created conversation matches its own pair, in either
order. -/
theorem directMatch_created_new (db : DB) (a b now : Nat)
    (hfresh : ∀ p ∈ db.participants, p.conversationId < db.nextConversationId) :
    directMatch (createdDirectDB db a b now) b a (newDirectConv db now) = true ∧
    directMatch (createdDirectDB db a b now) a b (newDirectConv db now) = true := by
  have hba : directMatch (createdDirectDB db a b now) b a (newDirectConv db now) = true := by
    unfold directMatch
    have hid : (newDirectConv db now).id = db.nextConversationId := rfl
    rw [hid, participantsOf_created_self db a b now hfresh]
    simp [newDirectConv, newDirectParticipant]
  refine ⟨hba, ?_⟩
  rw [directMatch_symm (createdDirectDB db a b now) b a (newDirectConv db now)]
  exact hba

/-- C2: for existing users `a ≠ b`, `createDirectConversation` succeeds and
any second call with the same pair — as `(b, a)` or `(a, b)` — returns the
very same conversation id and leaves the database unchanged (idempotent,
order-independent lookup-or-create). -/
theorem createDirectConversation_idempotent (db : DB) (a b now : Nat)
    (hwf : DBWF db) (hab : a ≠ b)
    (ha : ∃ u ∈ db.users, u.id = a) (hb : ∃ u ∈ db.users, u.id = b) :
    ∃ cid db₁, createDirectConversation db a b now = (.ok cid, db₁) ∧
      ∀ now', createDirectConversation db₁ b a now' = (.ok cid, db₁) ∧
              createDirectConversation db₁ a b now' = (.ok cid, db₁) := by
  obtain ⟨hwfConv, hwfPart, _⟩ := hwf
  have hba : b ≠ a := fun hcon => hab hcon.symm
  have hbu : (findUser db b).isSome := by
    apply List.find?_isSome.mpr
    obtain ⟨u, hu, hui⟩ := hb
    exact ⟨u, hu, by simp only [beq_iff_eq]; exact hui⟩
  have hau : (findUser db a).isSome := by
    apply List.find?_isSome.mpr
    obtain ⟨u, hu, hui⟩ := ha
    exact ⟨u, hu, by simp only [beq_iff_eq]; exact hui⟩
  obtain ⟨ub, hub⟩ := Option.isSome_iff_exists.mp hbu
  obtain ⟨ua, hua⟩ := Option.isSome_iff_exists.mp hau
  cases hfind : db.conversations.find? (directMatch db a b) with
  | some c =>
    have hsymm : db.conversations.find? (directMatch db b a) = some c := by
      rw [find?_congr (directMatch_symm db a b) db.conversations]
      exact hfind
    refine ⟨c.id, db, ?_, ?_⟩
    · unfold createDirectConversation
      rw [if_neg hab]
      simp only [hub, hfind]
    · intro now'
      constructor
      · unfold createDirectConversation
        rw [if_neg hba]
        simp only [hua, hsymm]
      · unfold createDirectConversation
        rw [if_neg hab]
        simp only [hub, hfind]
  | none =>
    have hnone : ∀ c ∈ db.conversations, directMatch db a b c = false := by
      intro c hc
      have := List.find?_eq_none.mp hfind c hc
      exact Bool.eq_false_iff.mpr this
    have hnew := directMatch_created_new db a b now hwfPart
    have hfind2 : ∀ x y, (∀ c ∈ db.conversations,
          directMatch (createdDirectDB db a b now) x y c = false) →
        directMatch (createdDirectDB db a b now) x y (newDirectConv db now) = true →
        (createdDirectDB db a b now).conversations.find?
          (directMatch (createdDirectDB db a b now) x y) = some (newDirectConv db now) := by
      intro x y hold hnewm
      show (db.conversations ++ [newDirectConv db now]).find? _ = _
      rw [find?_append_left_none hold]
      exact List.find?_cons_of_pos _ hnewm
    have holdba : ∀ c ∈ db.conversations,
        directMatch (createdDirectDB db a b now) b a c = false := by
      intro c hc
      rw [directMatch_created_old db a b now b a c
        (Nat.ne_of_lt (hwfConv c hc))]
      rw [directMatch_symm db a b c]
      exact hnone c hc
    have holdab : ∀ c ∈ db.conversations,
        directMatch (createdDirectDB db a b now) a b c = false := by
      intro c hc
      rw [directMatch_created_old db a b now a b c
        (Nat.ne_of_lt (hwfConv c hc))]
      exact hnone c hc
    have hfba := hfind2 b a holdba hnew.1
    have hfab := hfind2 a b holdab hnew.2
    refine ⟨db.nextConversationId, createdDirectDB db a b now, ?_, ?_⟩
    · unfold createDirectConversation
      rw [if_neg hab]
      simp only [hub, hfind]
    · intro now'
      have hua1 : findUser (createdDirectDB db a b now) a = some ua := hua
      have hub1 : findUser (createdDirectDB db a b now) b = some ub := hub
      constructor
      · unfold createDirectConversation
        rw [if_neg hba]
        simp only [hua1, hfba]
        rfl
      · unfold createDirectConversation
        rw [if_neg hab]
        simp only [hub1, hfab]
        rfl

/-- C2 witness: starting from `dbC` (no conversations), Alice creates a
direct conversation with Bob; repeating the call in either order returns
conversation 1 and changes nothing. -/
theorem createDirectConversation_idempotent_witness :
    DBWF dbC ∧
    (∃ cid db₁, createDirectConversation dbC 1 2 7 = (.ok cid, db₁) ∧
      ∀ now', createDirectConversation db₁ 2 1 now' = (.ok cid, db₁) ∧
              createDirectConversation db₁ 1 2 now' = (.ok cid, db₁)) := by
  refine ⟨by decide, ?_⟩
  exact createDirectConversation_idempotent dbC 1 2 7 (by decide) (by decide)
    ⟨uAlice, by decide, by decide⟩ ⟨uBob, by decide, by decide⟩

/-- C4 counterexample: the `lastMessage` query of `getConversations` has no
`deletedAt` filter, so in `dbB` — where the newest message of conversation 1
is soft-deleted — the listing's `lastMessage` is the deleted message 2
(content already nulled), not the most recent non-deleted message 1. -/
theorem getConversations_deleted_lastMessage_cex :
    ((getConversations dbB 1 1 20).1.all (fun e =>
      specLatestNonDeleted dbB e.id e.lastMessage)) = false ∧
    ((getConversations dbB 1 1 20).1.map (fun e => e.lastMessage)) =
      [some { id := 2, content := none, mtype := "text", createdAt := 20, senderId := 2 }] ∧
    msgDel.id = 2 ∧ msgDel.deletedAt = some 25 ∧
    msgHi ∈ dbB.messages ∧ msgHi.deletedAt = none ∧ msgHi.conversationId = 1 ∧
    msgHi.createdAt < msgDel.createdAt := by
  decide

/-- C4 (amended): every conversation entry `getConversations` returns —
whatever the page and limit — carries as `lastMessage` the most recent
message of that conversation regardless of soft deletion (none exactly when
the conversation has no messages at all), and an unread count equal to the
number of messages of the conversation with `createdAt` later than the
caller's participant `lastReadAt` and a different sender. -/
theorem getConversations_annotations (db : DB) (uid page limit : Nat) :
    ∀ e ∈ (getConversations db uid page limit).1,
      ∃ c ∈ db.conversations, e.id = c.id ∧
        (∃ p ∈ db.participants, p.conversationId = c.id ∧ p.userId = uid ∧
          e.unreadCount = (db.messages.filter (fun m =>
            m.conversationId == c.id && p.lastReadAt < m.createdAt &&
              m.senderId != uid)).length) ∧
        (e.lastMessage = none → ∀ m ∈ db.messages, m.conversationId ≠ c.id) ∧
        (∀ v, e.lastMessage = some v →
          ∃ m ∈ db.messages, m.conversationId = c.id ∧ m.id = v.id ∧
            m.createdAt = v.createdAt ∧ m.content = v.content ∧
            m.senderId = v.senderId ∧ m.mtype = v.mtype ∧
            ∀ m' ∈ db.messages, m'.conversationId = c.id →
              m'.createdAt ≤ m.createdAt) := by
  intro e he
  have he' : e ∈ (((sortBy convRecentFirst (db.conversations.filter (fun c =>
      db.participants.any (fun p =>
        p.conversationId == c.id && p.userId == uid)))).drop
      ((page - 1) * limit)).take limit).map (annotateConversation db uid) := he
  obtain ⟨c, hcmem0, rfl⟩ := List.mem_map.mp he'
  have hcmem3 : c ∈ db.conversations.filter (fun c =>
      db.participants.any (fun p => p.conversationId == c.id && p.userId == uid)) :=
    mem_sortBy.mp (List.mem_of_mem_drop (List.mem_of_mem_take hcmem0))
  have hcmem : c ∈ db.conversations := (List.mem_filter.mp hcmem3).1
  have hcpred : (db.participants.any (fun p =>
      p.conversationId == c.id && p.userId == uid)) = true :=
    (List.mem_filter.mp hcmem3).2
  obtain ⟨q, hqmem, hqpred⟩ := List.any_eq_true.mp hcpred
  have hsome : (findParticipant db c.id uid).isSome :=
    List.find?_isSome.mpr ⟨q, hqmem, hqpred⟩
  obtain ⟨q', hq'⟩ := Option.isSome_iff_exists.mp hsome
  have hq'mem : q' ∈ db.participants := List.mem_of_find?_eq_some hq'
  have hq'pred : (q'.conversationId == c.id && q'.userId == uid) = true := by
    have := List.find?_some hq'
    exact this
  rw [Bool.and_eq_true, beq_iff_eq, beq_iff_eq] at hq'pred
  refine ⟨c, hcmem, rfl, ?_, ?_, ?_⟩
  · refine ⟨q', hq'mem, hq'pred.1, hq'pred.2, ?_⟩
    have : (annotateConversation db uid c).unreadCount =
        unreadCountQuery db c.id uid q'.lastReadAt := by
      unfold annotateConversation
      simp only [hq']
    exact this
  · intro hnone m hm hmc
    have hlm : lastMessageOf db c.id = none := by
      have : (annotateConversation db uid c).lastMessage =
          (lastMessageOf db c.id).map (fun m =>
            ({ id := m.id, content := m.content, mtype := m.mtype,
               createdAt := m.createdAt, senderId := m.senderId } : LastMessageView)) := rfl
      rw [this] at hnone
      exact Option.map_eq_none'.mp hnone
    have hsortnil : sortBy msgRecentFirst
        (db.messages.filter (fun m => m.conversationId == c.id)) = [] := by
      unfold lastMessageOf at hlm
      exact List.head?_eq_none_iff.mp hlm
    have hfilnil : db.messages.filter (fun m => m.conversationId == c.id) = [] :=
      sortBy_eq_nil_iff.mp hsortnil
    have := List.filter_eq_nil_iff.mp hfilnil m hm
    simp only [beq_iff_eq] at this
    exact this hmc
  · intro v hv
    cases hlm : lastMessageOf db c.id with
    | none =>
      exfalso
      have : (annotateConversation db uid c).lastMessage = none := by
        unfold annotateConversation
        simp only [hlm]
        rfl
      rw [this] at hv
      exact Option.noConfusion hv
    | some m₀ =>
      have hv' : (annotateConversation db uid c).lastMessage =
          some { id := m₀.id, content := m₀.content, mtype := m₀.mtype,
                 createdAt := m₀.createdAt, senderId := m₀.senderId } := by
        unfold annotateConversation
        simp only [hlm]
        rfl
      rw [hv'] at hv
      have hveq := Option.some.inj hv
      subst hveq
      have hlm' : (sortBy (fun a b : Message => decide (b.createdAt ≤ a.createdAt))
          (db.messages.filter (fun m => m.conversationId == c.id))).head? = some m₀ := hlm
      have hmax := sortBy_head?_max (fun m : Message => m.createdAt)
        (db.messages.filter (fun m => m.conversationId == c.id)) m₀ hlm'
      have hm₀fil := hmax.1
      have hm₀mem : m₀ ∈ db.messages := (List.mem_filter.mp hm₀fil).1
      have hm₀c : m₀.conversationId = c.id := by
        have := (List.mem_filter.mp hm₀fil).2
        exact beq_iff_eq.mp this
      refine ⟨m₀, hm₀mem, hm₀c, rfl, rfl, rfl, rfl, rfl, ?_⟩
      intro m' hm' hm'c
      exact hmax.2 m' (List.mem_filter.mpr ⟨hm', beq_iff_eq.mpr hm'c⟩)

/-- C4 witness: Alice's listing of `dbA` contains the entry for
conversation 1, and it satisfies the amended annotation property. -/
theorem getConversations_annotations_witness :
    entryA ∈ (getConversations dbA 1 1 20).1 ∧
    (∃ c ∈ dbA.conversations, entryA.id = c.id ∧
      (∃ p ∈ dbA.participants, p.conversationId = c.id ∧ p.userId = 1 ∧
        entryA.unreadCount = (dbA.messages.filter (fun m =>
          m.conversationId == c.id && p.lastReadAt < m.createdAt &&
            m.senderId != 1)).length) ∧
      (entryA.lastMessage = none → ∀ m ∈ dbA.messages, m.conversationId ≠ c.id) ∧
      (∀ v, entryA.lastMessage = some v →
        ∃ m ∈ dbA.messages, m.conversationId = c.id ∧ m.id = v.id ∧
          m.createdAt = v.createdAt ∧ m.content = v.content ∧
          m.senderId = v.senderId ∧ m.mtype = v.mtype ∧
          ∀ m' ∈ dbA.messages, m'.conversationId = c.id →
            m'.createdAt ≤ m.createdAt)) := by
  have hmem : entryA ∈ (getConversations dbA 1 1 20).1 := by decide
  exact ⟨hmem, getConversations_annotations dbA 1 1 20 entryA hmem⟩

end Chat
